import Mathlib

/-!
Verification development for the CLoud-FIle-Agent repository: a content-addressed,
reference-counted file store with deduplication (Django backend) and a React/TypeScript
frontend (file listing with filters, upload page, chat assistant client).

The frontend definitions are shallow embeddings of the TypeScript in
`frontend/src/components/Navbar.tsx` (the `FileList.filteredFiles` filter chain and the
`FilterPanel` filter record) and `frontend/src/services/api.ts`
(`ApiClient.sendChatMessage` session-id validation).  JavaScript strings are modelled as
Lean `String`s, with character-level helpers standing in for `toLowerCase`, `includes`,
`startsWith` and the whitespace test done by `trim`.

The backend store (hashing, blob store, reference ledger, file registry, dedup
coordinator, stats aggregator) lives in `backend/apps/files/services/` and
`backend/apps/files/models/`, which are not present in the source tree here; those
definitions are modelled from the specification, as marked on each definition.
-/

namespace CloudFileAgent

/-! ### Character-level string helpers (JS `String` methods) -/

/-- Character list of `s` lower-cased, modelling JS `s.toLowerCase()`. -/
def lowerStr (s : String) : List Char :=
  s.data.map Char.toLower

/-- Does `hay` start with `pat`?  Modelling JS `hay.startsWith(pat)`. -/
def leadsWith : List Char → List Char → Bool
  | [], _ => true
  | _ :: _, [] => false
  | a :: as, b :: bs => decide (a = b) && leadsWith as bs

/-- Does `hay` contain `pat` as a contiguous substring?  Modelling JS
`hay.includes(pat)`. -/
def containsSub : List Char → List Char → Bool
  | pat, [] => leadsWith pat []
  | pat, c :: rest => leadsWith pat (c :: rest) || containsSub pat rest

/-! ### The frontend filter model (`FileList.filteredFiles` in Navbar.tsx) -/

/-- The filter record built by `FilterPanel` (Navbar.tsx).  `sizeValue` is a JS number
that may be `undefined` (`none` here); `sizeUnit` is one of `"KB"`, `"MB"`, `"GB"`. -/
structure FilterOptions where
  searchTerm : String
  fileType : String
  dateRange : String
  sizeRange : String
  sizeValue : Option ℚ
  sizeUnit : String
deriving Repr, DecidableEq

/-- A file row as the frontend sees it (`File` in types/file.ts): display name, MIME
type, upload timestamp (an abstract instant), and byte size. -/
structure FrontFile where
  original_filename : String
  file_type : String
  uploaded_at : Int
  size : Nat
deriving Repr, DecidableEq

/-- The browser `Date` operations used by the date-range filter, abstracted as an
environment: calendar-day equality (`getDate`/`getMonth`/`getFullYear` comparison) and
the `setDate(-7)` / `setMonth(-1)` / `setFullYear(-1)` thresholds. -/
structure DateEnv where
  sameCalendarDay : Int → Int → Bool
  weekAgo : Int → Int
  monthAgo : Int → Int
  yearAgo : Int → Int

/-- The date-range branch of `filteredFiles`: returns `true` when the file is rejected.
An empty or unrecognised `dateRange` rejects nothing, exactly as the source falls
through without returning `false`. -/
def dateReject (env : DateEnv) (now : Int) (dateRange : String) (uploadedAt : Int) :
    Bool :=
  if dateRange = "" then false
  else if dateRange = "today" then !(env.sameCalendarDay uploadedAt now)
  else if dateRange = "week" then decide (uploadedAt < env.weekAgo now)
  else if dateRange = "month" then decide (uploadedAt < env.monthAgo now)
  else if dateRange = "year" then decide (uploadedAt < env.yearAgo now)
  else false

/-- The custom-size threshold in bytes: `sizeValue * 1024 ^ k` according to
`sizeUnit`, `0` for an unrecognised unit, as in the source. -/
def sizeThresholdBytes (sizeUnit : String) (v : ℚ) : ℚ :=
  if sizeUnit = "KB" then v * 1024
  else if sizeUnit = "MB" then v * 1024 * 1024
  else if sizeUnit = "GB" then v * 1024 * 1024 * 1024
  else 0

/-- The size-range branch of `filteredFiles`: returns `true` when the file is rejected.
Presets: `small` (< 1MB), `medium` (1MB..10MB), `large` (> 10MB); custom `gte`/`lte`
compare against `sizeThresholdBytes` when `sizeValue` is defined. -/
def sizeReject (fl : FilterOptions) (size : Nat) : Bool :=
  if fl.sizeRange = "" then false
  else if fl.sizeRange = "small" then decide (1 * 1024 * 1024 ≤ size)
  else if fl.sizeRange = "medium" then
    decide (size < 1 * 1024 * 1024 ∨ 10 * 1024 * 1024 < size)
  else if fl.sizeRange = "large" then decide (size ≤ 10 * 1024 * 1024)
  else if fl.sizeRange = "gte" ∨ fl.sizeRange = "lte" then
    match fl.sizeValue with
    | none => false
    | some v =>
      if fl.sizeRange = "gte" then decide ((size : ℚ) < sizeThresholdBytes fl.sizeUnit v)
      else decide (sizeThresholdBytes fl.sizeUnit v < (size : ℚ))
  else false

/-- The per-file predicate of `FileList.filteredFiles` (Navbar.tsx), translated with the
source's early-return chain: search term, then file type, then date range, then size
range; a file passing all checks is kept. -/
def fileMatches (env : DateEnv) (now : Int) (fl : FilterOptions) (f : FrontFile) :
    Bool :=
  if fl.searchTerm ≠ "" ∧
      containsSub (lowerStr fl.searchTerm) (lowerStr f.original_filename) = false then
    false
  else if fl.fileType ≠ "" ∧ leadsWith fl.fileType.data f.file_type.data = false then
    false
  else if dateReject env now fl.dateRange f.uploaded_at then false
  else if sizeReject fl f.size then false
  else true

/-- `filteredFiles`: the list of files passing every supplied filter. -/
def filteredFiles (env : DateEnv) (now : Int) (fl : FilterOptions)
    (files : List FrontFile) : List FrontFile :=
  files.filter (fileMatches env now fl)

/-! The four filters as independent predicates, for comparison with the spec's
"conjunction of independent predicates" reading (spec §4.4). -/

/-- Independent search-term predicate: vacuously true when the term is absent. -/
def matchesSearch (fl : FilterOptions) (f : FrontFile) : Bool :=
  decide (fl.searchTerm = "") ||
    containsSub (lowerStr fl.searchTerm) (lowerStr f.original_filename)

/-- Independent media-type-prefix predicate: vacuously true when absent. -/
def matchesType (fl : FilterOptions) (f : FrontFile) : Bool :=
  decide (fl.fileType = "") || leadsWith fl.fileType.data f.file_type.data

/-- Independent upload-date-range predicate: vacuously true when absent. -/
def matchesDate (env : DateEnv) (now : Int) (fl : FilterOptions) (f : FrontFile) :
    Bool :=
  !dateReject env now fl.dateRange f.uploaded_at

/-- Independent size-range predicate: vacuously true when absent. -/
def matchesSize (fl : FilterOptions) (f : FrontFile) : Bool :=
  !sizeReject fl f.size

/-- The all-empty filter record (`FilterPanel.handleReset`). -/
def noFilters : FilterOptions :=
  ⟨"", "", "", "", none, "MB"⟩

/-- A filter record selecting only a size preset, as produced by picking a preset in
the panel with every other field left empty. -/
def presetFilter (preset : String) : FilterOptions :=
  ⟨"", "", "", preset, none, "MB"⟩

/-- The early-return chain of `filteredFiles` equals the conjunction of the four
independent filter predicates. -/
theorem fileMatches_eq_conj (env : DateEnv) (now : Int) (fl : FilterOptions)
    (f : FrontFile) :
    fileMatches env now fl f =
      (matchesSearch fl f && matchesType fl f && matchesDate env now fl f &&
        matchesSize fl f) := by
  unfold fileMatches matchesSearch matchesType matchesDate matchesSize
  by_cases h1 : fl.searchTerm = "" <;>
    by_cases h2 :
      containsSub (lowerStr fl.searchTerm) (lowerStr f.original_filename) = false <;>
    by_cases h3 : fl.fileType = "" <;>
    by_cases h4 : leadsWith fl.fileType.data f.file_type.data = false <;>
    by_cases h5 : dateReject env now fl.dateRange f.uploaded_at = true <;>
    by_cases h6 : sizeReject fl f.size = true <;>
    simp_all

/-- C3: a List query returns exactly the FileRecords satisfying every supplied filter
predicate (search term, media-type prefix, date range, size range), the filters acting
as independent conjuncts; an absent (empty) filter excludes nothing, and a query with
no filters returns every file. -/
theorem list_filters_conjunction (env : DateEnv) (now : Int) (fl : FilterOptions)
    (files : List FrontFile) :
    (∀ f : FrontFile, f ∈ filteredFiles env now fl files ↔
      f ∈ files ∧ matchesSearch fl f = true ∧ matchesType fl f = true ∧
        matchesDate env now fl f = true ∧ matchesSize fl f = true) ∧
    (fl.searchTerm = "" → ∀ f : FrontFile, matchesSearch fl f = true) ∧
    (fl.fileType = "" → ∀ f : FrontFile, matchesType fl f = true) ∧
    (fl.dateRange = "" → ∀ f : FrontFile, matchesDate env now fl f = true) ∧
    (fl.sizeRange = "" → ∀ f : FrontFile, matchesSize fl f = true) ∧
    filteredFiles env now noFilters files = files := by
  refine ⟨?_, ?_, ?_, ?_, ?_, ?_⟩
  · intro f
    rw [filteredFiles, List.mem_filter, fileMatches_eq_conj]
    simp [and_assoc]
  · intro h f; simp [matchesSearch, h]
  · intro h f; simp [matchesType, h]
  · intro h f; simp [matchesDate, dateReject, h]
  · intro h f; simp [matchesSize, sizeReject, h]
  · rw [filteredFiles, List.filter_eq_self]
    intro f _
    simp [fileMatches, noFilters, dateReject, sizeReject]

/-- A sample date environment for concrete evaluation of the filter model. -/
def envEx : DateEnv :=
  ⟨fun a b => decide (a = b), fun n => n - 7, fun n => n - 30, fun n => n - 365⟩

/-- A sample file listing for concrete evaluation of the filter model. -/
def filesEx : List FrontFile :=
  [⟨"report.pdf", "application/pdf", 0, 500⟩, ⟨"pic.png", "image/png", 3, 2097152⟩]

/-- Witness for C3 at a concrete query: the no-filter query over `filesEx` returns
every file, and the absent search term matches the first file. -/
theorem list_filters_conjunction_witness :
    filteredFiles envEx 5 noFilters filesEx = filesEx ∧
      matchesSearch noFilters ⟨"report.pdf", "application/pdf", 0, 500⟩ = true :=
  ⟨(list_filters_conjunction envEx 5 noFilters filesEx).2.2.2.2.2,
   (list_filters_conjunction envEx 5 noFilters filesEx).2.1 rfl
     ⟨"report.pdf", "application/pdf", 0, 500⟩⟩

/-- C9: the three preset size filters partition the byte sizes: `small` holds exactly
below 1 MiB, `medium` exactly between 1 MiB and 10 MiB inclusive, `large` exactly above
10 MiB; every file matches exactly one preset, and the boundary sizes 1 MiB and 10 MiB
match only `medium`. -/
theorem size_presets_partition (f : FrontFile) :
    (matchesSize (presetFilter "small") f = true ↔ f.size < 1048576) ∧
    (matchesSize (presetFilter "medium") f = true ↔
      1048576 ≤ f.size ∧ f.size ≤ 10485760) ∧
    (matchesSize (presetFilter "large") f = true ↔ 10485760 < f.size) ∧
    ((if matchesSize (presetFilter "small") f then 1 else 0) +
      (if matchesSize (presetFilter "medium") f then 1 else 0) +
      (if matchesSize (presetFilter "large") f then 1 else 0) = (1 : Nat)) ∧
    (f.size = 1048576 ∨ f.size = 10485760 →
      matchesSize (presetFilter "small") f = false ∧
      matchesSize (presetFilter "medium") f = true ∧
      matchesSize (presetFilter "large") f = false) := by
  have hs : matchesSize (presetFilter "small") f = true ↔ f.size < 1048576 := by
    simp [matchesSize, sizeReject, presetFilter]
  have hm : matchesSize (presetFilter "medium") f = true ↔
      1048576 ≤ f.size ∧ f.size ≤ 10485760 := by
    simp [matchesSize, sizeReject, presetFilter]
  have hl : matchesSize (presetFilter "large") f = true ↔ 10485760 < f.size := by
    simp [matchesSize, sizeReject, presetFilter]
  refine ⟨hs, hm, hl, ?_, ?_⟩
  · rcases Nat.lt_or_ge f.size 1048576 with h | h
    · have t1 := hs.mpr h
      have t2 : ¬matchesSize (presetFilter "medium") f = true := by rw [hm]; omega
      have t3 : ¬matchesSize (presetFilter "large") f = true := by rw [hl]; omega
      simp [t1, t2, t3]
    · rcases Nat.lt_or_ge 10485760 f.size with h2 | h2
      · have t1 : ¬matchesSize (presetFilter "small") f = true := by rw [hs]; omega
        have t2 : ¬matchesSize (presetFilter "medium") f = true := by rw [hm]; omega
        have t3 := hl.mpr h2
        simp [t1, t2, t3]
      · have t1 : ¬matchesSize (presetFilter "small") f = true := by rw [hs]; omega
        have t2 := hm.mpr ⟨h, h2⟩
        have t3 : ¬matchesSize (presetFilter "large") f = true := by rw [hl]; omega
        simp [t1, t2, t3]
  · intro h
    have t1 : ¬matchesSize (presetFilter "small") f = true := by rw [hs]; omega
    have t2 := hm.mpr (by omega)
    have t3 : ¬matchesSize (presetFilter "large") f = true := by rw [hl]; omega
    exact ⟨by simpa using t1, t2, by simpa using t3⟩

/-- Witness for C9 at the 1 MiB boundary: a file of exactly 1 MiB matches only the
`medium` preset. -/
theorem size_presets_partition_witness :
    matchesSize (presetFilter "small") ⟨"a", "t", 0, 1048576⟩ = false ∧
      matchesSize (presetFilter "medium") ⟨"a", "t", 0, 1048576⟩ = true ∧
      matchesSize (presetFilter "large") ⟨"a", "t", 0, 1048576⟩ = false :=
  (size_presets_partition ⟨"a", "t", 0, 1048576⟩).2.2.2.2 (Or.inl rfl)

/-! ### The chat client's session-id validation (`ApiClient.sendChatMessage`) -/

/-- What `sendChatMessage` does with a given session id before any network traffic:
reject it as empty, reject it as badly formatted, or proceed to send the request to the
assistant endpoint. -/
inductive ChatSendAction where
  | rejectEmpty
  | rejectFormat
  | sendRequest
deriving Repr, DecidableEq

/-- A hexadecimal digit, as matched by the character class `[0-9a-f]` under the
case-insensitive `/i` regex flag. -/
def isHexDigit (c : Char) : Bool :=
  c.isDigit || (decide ('a' ≤ c) && decide (c ≤ 'f')) ||
    (decide ('A' ≤ c) && decide (c ≤ 'F'))

/-- The anchored 8-4-4-4-12 UUID regex of `sendChatMessage`: 36 characters, dashes at
positions 8, 13, 18 and 23, hexadecimal digits everywhere else. -/
def uuidFormat (s : String) : Bool :=
  decide (s.data.length = 36) &&
    (List.range 36).all (fun i =>
      if i = 8 ∨ i = 13 ∨ i = 18 ∨ i = 23 then decide (s.data.getD i '-' = '-')
      else isHexDigit (s.data.getD i '-'))

/-- The validation phase of `ApiClient.sendChatMessage` (api.ts): an empty or
whitespace-only session id throws before the format check; a non-UUID session id throws
before any request; only a well-formed id reaches the assistant endpoint. -/
def sendChatMessageAction (sessionId : String) : ChatSendAction :=
  if sessionId = "" ∨ sessionId.data.all Char.isWhitespace then .rejectEmpty
  else if uuidFormat sessionId = false then .rejectFormat
  else .sendRequest

/-- C10: `sendChatMessage` throws an invalid-session-id error, without issuing any
network request, whenever the session id is empty, whitespace-only, or not in the
8-4-4-4-12 hexadecimal UUID format; the request to the assistant endpoint is sent
exactly for well-formed UUID session ids. -/
theorem chat_session_validation (s : String) :
    (s = "" ∨ s.data.all Char.isWhitespace = true →
      sendChatMessageAction s = .rejectEmpty) ∧
    (uuidFormat s = false → sendChatMessageAction s ≠ .sendRequest) ∧
    (sendChatMessageAction s = .sendRequest ↔ uuidFormat s = true) := by
  refine ⟨?_, ?_, ?_, ?_⟩
  · intro h
    rw [sendChatMessageAction, if_pos]
    simpa using h
  · intro h
    rw [sendChatMessageAction]
    by_cases h1 : s = "" ∨ s.data.all Char.isWhitespace = true
    · rw [if_pos (by simpa using h1)]; simp
    · rw [if_neg (by simpa using h1), if_pos h]; simp
  · intro h
    rw [sendChatMessageAction] at h
    by_cases h1 : s = "" ∨ s.data.all Char.isWhitespace = true
    · rw [if_pos (by simpa using h1)] at h; simp at h
    · rw [if_neg (by simpa using h1)] at h
      by_cases h2 : uuidFormat s = false
      · rw [if_pos h2] at h; simp at h
      · simpa using h2
  · intro h
    have hx : s.length = 36 ∧ ∀ x < 36,
        if x = 8 ∨ x = 13 ∨ x = 18 ∨ x = 23 then s.data[x]?.getD '-' = '-'
        else isHexDigit (s.data[x]?.getD '-') = true := by
      simpa [uuidFormat] using h
    have hlen : s.data.length = 36 := hx.1
    have h8lt : 8 < s.data.length := by omega
    have hdash : s.data[8]?.getD '-' = '-' := by
      have h8 := hx.2 8 (by omega)
      rwa [if_pos (Or.inl rfl)] at h8
    have hdash2 : s.data.get ⟨8, h8lt⟩ = '-' := by
      rw [List.getElem?_eq_getElem h8lt] at hdash
      simpa using hdash
    have hne : ¬(s = "" ∨ s.data.all Char.isWhitespace = true) := by
      rintro (he | hw)
      · rw [he] at hlen; simp at hlen
      · have := List.all_eq_true.mp hw _ (List.get_mem s.data 8 h8lt)
        rw [hdash2] at this
        simp at this
    rw [sendChatMessageAction, if_neg (by simpa using hne), if_neg (by simp [h])]

/-- Witness for C10: the empty session id is rejected, and a canonical UUID reaches
the send step. -/
theorem chat_session_validation_witness :
    sendChatMessageAction "" = .rejectEmpty ∧
      sendChatMessageAction "123e4567-e89b-12d3-a456-426614174000" = .sendRequest :=
  ⟨(chat_session_validation "").1 (Or.inl rfl),
   (chat_session_validation "123e4567-e89b-12d3-a456-426614174000").2.2.mpr
     (by decide)⟩

/-! ### The content-addressed, reference-counted store

Modelled from the spec: the backend store implementation
(`backend/apps/files/services/storage_service.py`, `file_service.py`,
`models/file.py`) is not present under the source tree; the definitions below follow
spec sections 3-4 (data model, Hasher, Blob Store, Reference Ledger, File Registry,
Dedup Coordinator, Stats Aggregator) and the `apps/files` README. -/

/-- A payload: the uploaded byte stream, as a list of byte values. -/
abbrev Payload := List Nat

/-- A content digest. -/
abbrev Digest := List Nat

/-- Modelled from the spec: the Hasher (`digest(payload) -> ContentDigest`, SHA-256 in
the README) is a deterministic function of the payload bytes alone, and digest equality
is assumed to imply content equality (collisions are not handled, spec section 3).  It
is therefore modelled as an injective pure function, realised as the identity on the
byte list. -/
def digest (p : Payload) : Digest := p

/-- One logical upload row (spec section 3, FileRecord): identifier, untrusted display
filename, declared media type, byte size, creation instant, and the referenced
digest. -/
structure FileRecord where
  fid : Nat
  original_filename : String
  file_type : String
  size : Nat
  uploaded_at : Nat
  digest : Digest
deriving Repr, DecidableEq

/-- The persisted state: the File Registry rows, the Blob Store (digest-keyed
payloads), the Reference Ledger (digest-keyed counts), and the next fresh record
identifier. -/
structure StoreState where
  records : List FileRecord
  blobs : List (Digest × Payload)
  ledger : List (Digest × Nat)
  nextId : Nat
deriving Repr, DecidableEq

/-- The store before any upload. -/
def emptyStore : StoreState := ⟨[], [], [], 0⟩

/-- Reference Ledger lookup: `count(digest)`, `0` when no entry exists. -/
def lookupCount (ledger : List (Digest × Nat)) (d : Digest) : Nat :=
  match ledger.find? (fun e => decide (e.1 = d)) with
  | some e => e.2
  | none => 0

/-- Reference Ledger `increment(digest)`: bump the entry, creating it at `1` when
absent. -/
def increment : List (Digest × Nat) → Digest → List (Digest × Nat)
  | [], d => [(d, 1)]
  | e :: rest, d =>
    if e.1 = d then (e.1, e.2 + 1) :: rest else e :: increment rest d

/-- Reference Ledger `decrement(digest)`: lower the entry, removing it when the count
reaches zero (spec section 3: the entry is removed together with the Blob). -/
def decrement : List (Digest × Nat) → Digest → List (Digest × Nat)
  | [], _ => []
  | e :: rest, d =>
    if e.1 = d then (if e.2 ≤ 1 then rest else (e.1, e.2 - 1) :: rest)
    else e :: decrement rest d

/-- Blob Store lookup: does a Blob for `d` exist? -/
def blobExists (blobs : List (Digest × Payload)) (d : Digest) : Bool :=
  blobs.any (fun b => decide (b.1 = d))

/-- Blob Store `put_if_absent(digest, payload)`: store the payload under the digest
unless a Blob already exists. -/
def putIfAbsent (blobs : List (Digest × Payload)) (d : Digest) (p : Payload) :
    List (Digest × Payload) :=
  if blobExists blobs d then blobs else (d, p) :: blobs

/-- Blob Store `remove(digest)`: delete the payload; idempotent when absent. -/
def removeBlob (blobs : List (Digest × Payload)) (d : Digest) :
    List (Digest × Payload) :=
  blobs.filter (fun b => !decide (b.1 = d))

/-- The resource limits of spec section 7: the per-payload bound behind
`PayloadTooLarge` and the physical capacity behind `StorageFull`. -/
structure Limits where
  maxPayloadBytes : Nat
  capacityBytes : Nat
deriving Repr, DecidableEq

/-- Upload rejections checked before any Registry/Ledger mutation (spec section 7). -/
inductive UploadError where
  | payloadTooLarge
  | storageFull
deriving Repr, DecidableEq

/-- A successful upload response: the new FileRecord, the `is_duplicate` flag, and the
post-increment `reference_count` (spec section 4.5, frontend `FileUploadResponse`). -/
structure UploadOk where
  record : FileRecord
  is_duplicate : Bool
  reference_count : Nat
deriving Repr, DecidableEq

/-- The outcome of an upload: the store state afterwards (unchanged on rejection) and
the response or error. -/
structure UploadOutcome where
  state : StoreState
  result : Except UploadError UploadOk

/-- The physically stored footprint: the sum of the stored blob sizes. -/
def physicalSize (st : StoreState) : Nat :=
  (st.blobs.map (fun b => b.2.length)).sum

/-- Modelled from the spec: the Dedup Coordinator upload operation (spec section 4.5).
Resource limits are checked before any mutation; then the payload is hashed, the Blob
is stored if absent, a FileRecord is inserted and the Ledger entry incremented, all in
one transition. -/
def upload (lim : Limits) (st : StoreState) (payload : Payload)
    (filename mediaType : String) (now : Nat) : UploadOutcome :=
  if lim.maxPayloadBytes < payload.length then ⟨st, .error .payloadTooLarge⟩
  else
    let d := digest payload
    let isDup := blobExists st.blobs d
    if isDup = false ∧ lim.capacityBytes < physicalSize st + payload.length then
      ⟨st, .error .storageFull⟩
    else
      let r : FileRecord := ⟨st.nextId, filename, mediaType, payload.length, now, d⟩
      let ledger1 := increment st.ledger d
      ⟨⟨r :: st.records, putIfAbsent st.blobs d payload, ledger1, st.nextId + 1⟩,
       .ok ⟨r, isDup, lookupCount ledger1 d⟩⟩

/-- The outcome of a delete: `NotFound`, or the store state afterwards. -/
inductive DeleteOutcome where
  | notFound
  | ok (st : StoreState)
deriving Repr, DecidableEq

/-- Modelled from the spec: the Dedup Coordinator delete operation (spec section 4.5).
Remove the FileRecord (`NotFound` when absent), decrement the Ledger entry for its
digest, and remove the Blob together with the Ledger entry exactly when the resulting
count is zero. -/
def delete (st : StoreState) (fid : Nat) : DeleteOutcome :=
  match st.records.find? (fun r => decide (r.fid = fid)) with
  | none => .notFound
  | some r =>
    let newCount := lookupCount st.ledger r.digest - 1
    .ok ⟨st.records.eraseP (fun q => decide (q.fid = fid)),
         if newCount = 0 then removeBlob st.blobs r.digest else st.blobs,
         decrement st.ledger r.digest,
         st.nextId⟩

/-- Blob size by digest, `0` when no Blob exists. -/
def blobSize (blobs : List (Digest × Payload)) (d : Digest) : Nat :=
  match blobs.find? (fun b => decide (b.1 = d)) with
  | some b => b.2.length
  | none => 0

/-- Bytes not physically stored thanks to deduplication: `(n - 1) * s` for every
digest with reference count `n > 1` and blob size `s` (spec section 4.6). -/
def savedBytes (st : StoreState) : Nat :=
  (st.ledger.map
    (fun e => if 1 < e.2 then (e.2 - 1) * blobSize st.blobs e.1 else 0)).sum

/-- The logical footprint: the sum of `size` over all FileRecords. -/
def totalBytes (st : StoreState) : Nat :=
  (st.records.map (fun r => r.size)).sum

/-- The storage statistics record served by `/api/files/stats/` (frontend
`StorageStats`). -/
structure StorageStats where
  total_files : Nat
  unique_files : Nat
  total_size_bytes : Nat
  saved_size_bytes : Nat
  duplicate_percentage : ℚ
deriving Repr, DecidableEq

/-- Modelled from the spec: the Stats Aggregator (spec section 4.6), a pure read over
Registry and Ledger.  `duplicate_percentage` is `saved / total * 100`, defined as `0`
when `total_size_bytes` is `0`. -/
def stats (st : StoreState) : StorageStats :=
  { total_files := st.records.length
    unique_files := (st.ledger.filter (fun e => decide (0 < e.2))).length
    total_size_bytes := totalBytes st
    saved_size_bytes := savedBytes st
    duplicate_percentage :=
      if totalBytes st = 0 then 0
      else (savedBytes st : ℚ) / (totalBytes st : ℚ) * 100 }

/-- The sum of blob sizes over the distinct digests with a nonzero reference count:
the physically stored footprint as the stats identity of spec section 8 phrases it. -/
def uniqueBlobBytes (st : StoreState) : Nat :=
  ((st.ledger.filter (fun e => decide (0 < e.2))).map
    (fun e => blobSize st.blobs e.1)).sum

/-- Number of live FileRecords whose digest is `d`. -/
def countRecords (records : List FileRecord) (d : Digest) : Nat :=
  (records.filter (fun r => decide (r.digest = d))).length

/-- States reachable from the empty store by upload and delete operations under fixed
resource limits.  A rejected upload keeps the state unchanged, so the upload
constructor covers failures as well. -/
inductive Reachable (lim : Limits) : StoreState → Prop
  | empty : Reachable lim emptyStore
  | upload (st : StoreState) (p : Payload) (fn mt : String) (now : Nat) :
      Reachable lim st → Reachable lim (upload lim st p fn mt now).state
  | del (st : StoreState) (fid : Nat) (st' : StoreState) :
      Reachable lim st → delete st fid = .ok st' → Reachable lim st'

/-- The reference-count invariant of spec section 3: a Blob for `d` exists exactly when
the reference count of `d` is positive, and that count equals the number of live
FileRecords whose digest is `d`. -/
def RefCountInv (st : StoreState) : Prop :=
  ∀ d : Digest,
    (blobExists st.blobs d = true ↔ 0 < lookupCount st.ledger d) ∧
    lookupCount st.ledger d = countRecords st.records d

/-- Structural well-formedness of a store state: ledger and blob keys are distinct,
ledger counts are positive, blobs store the payload matching their digest, record
sizes match their payloads, record identifiers are fresh and distinct, and the
reference-count invariant holds. -/
def WFStore (st : StoreState) : Prop :=
  (st.ledger.map Prod.fst).Nodup ∧
  (∀ e ∈ st.ledger, 0 < e.2) ∧
  (st.blobs.map Prod.fst).Nodup ∧
  (∀ b ∈ st.blobs, b.2 = b.1) ∧
  (∀ r ∈ st.records, r.size = r.digest.length ∧ r.fid < st.nextId) ∧
  (st.records.map FileRecord.fid).Nodup ∧
  RefCountInv st

/-! ### Ledger lemmas -/

/-- Unfolding `lookupCount` over a cons cell. -/
theorem lookupCount_cons (e : Digest × Nat) (rest : List (Digest × Nat)) (d : Digest) :
    lookupCount (e :: rest) d = if e.1 = d then e.2 else lookupCount rest d := by
  by_cases h : e.1 = d
  · rw [if_pos h]
    unfold lookupCount
    rw [List.find?_cons_of_pos _ (by simpa using h)]
  · rw [if_neg h]
    unfold lookupCount
    rw [List.find?_cons_of_neg _ (by simpa using h)]

/-- A digest absent from the ledger keys has count `0`. -/
theorem lookupCount_eq_zero_of_not_mem (led : List (Digest × Nat)) (d : Digest)
    (h : d ∉ led.map Prod.fst) : lookupCount led d = 0 := by
  induction led with
  | nil => rfl
  | cons e rest ih =>
    rw [lookupCount_cons]
    simp only [List.map_cons, List.mem_cons] at h
    push_neg at h
    rw [if_neg (fun q => h.1 q.symm)]
    exact ih h.2

/-- `increment` bumps exactly the chosen digest's count. -/
theorem lookupCount_increment (led : List (Digest × Nat)) (d0 d : Digest) :
    lookupCount (increment led d0) d =
      if d = d0 then lookupCount led d + 1 else lookupCount led d := by
  induction led with
  | nil =>
    rw [show increment [] d0 = [(d0, 1)] from rfl, lookupCount_cons]
    by_cases h : d = d0
    · subst h; rw [if_pos rfl, if_pos rfl]; rfl
    · rw [if_neg (fun q => h q.symm), if_neg h]
  | cons e rest ih =>
    by_cases hd : d = d0
    · subst hd
      rw [if_pos rfl]
      by_cases he : e.1 = d
      · rw [show increment (e :: rest) d = (e.1, e.2 + 1) :: rest by
          simp [increment, he]]
        rw [lookupCount_cons, lookupCount_cons, if_pos he, if_pos he]
      · rw [show increment (e :: rest) d = e :: increment rest d by
          simp [increment, he]]
        rw [lookupCount_cons, lookupCount_cons, if_neg he, if_neg he, ih, if_pos rfl]
    · rw [if_neg hd]
      by_cases he : e.1 = d0
      · rw [show increment (e :: rest) d0 = (e.1, e.2 + 1) :: rest by
          simp [increment, he]]
        have hne : ¬e.1 = d := fun q => hd (q.symm.trans he)
        rw [lookupCount_cons, lookupCount_cons, if_neg hne, if_neg hne]
      · rw [show increment (e :: rest) d0 = e :: increment rest d0 by
          simp [increment, he]]
        rw [lookupCount_cons, lookupCount_cons, ih, if_neg hd]

/-- The ledger keys after `increment`: unchanged when the digest was present,
extended by it otherwise. -/
theorem increment_keys (led : List (Digest × Nat)) (d0 : Digest) :
    (increment led d0).map Prod.fst =
      if d0 ∈ led.map Prod.fst then led.map Prod.fst
      else led.map Prod.fst ++ [d0] := by
  induction led with
  | nil => simp [increment]
  | cons e rest ih =>
    by_cases he : e.1 = d0
    · rw [show increment (e :: rest) d0 = (e.1, e.2 + 1) :: rest by
        simp [increment, he]]
      simp only [List.map_cons]
      rw [if_pos (List.mem_cons.mpr (Or.inl he.symm))]
    · rw [show increment (e :: rest) d0 = e :: increment rest d0 by
        simp [increment, he]]
      simp only [List.map_cons, ih]
      by_cases hm : d0 ∈ rest.map Prod.fst
      · rw [if_pos hm, if_pos (List.mem_cons.mpr (Or.inr hm))]
      · rw [if_neg hm, if_neg (by
          intro hq
          rcases List.mem_cons.mp hq with h1 | h1
          · exact he h1.symm
          · exact hm h1)]
        simp

/-- `increment` preserves distinctness of the ledger keys. -/
theorem increment_keys_nodup (led : List (Digest × Nat)) (d0 : Digest)
    (h : (led.map Prod.fst).Nodup) : ((increment led d0).map Prod.fst).Nodup := by
  rw [increment_keys]
  by_cases hm : d0 ∈ led.map Prod.fst
  · rwa [if_pos hm]
  · rw [if_neg hm]
    exact h.append (List.nodup_singleton _) (List.disjoint_singleton.mpr hm)

/-- `increment` keeps every ledger count positive. -/
theorem increment_pos (led : List (Digest × Nat)) (d0 : Digest)
    (h : ∀ e ∈ led, 0 < e.2) : ∀ e ∈ increment led d0, 0 < e.2 := by
  induction led with
  | nil => simp [increment]
  | cons e rest ih =>
    by_cases he : e.1 = d0
    · rw [show increment (e :: rest) d0 = (e.1, e.2 + 1) :: rest by
        simp [increment, he]]
      intro x hx
      rcases List.mem_cons.mp hx with h1 | h1
      · subst h1; simp
      · exact h x (List.mem_cons_of_mem _ h1)
    · rw [show increment (e :: rest) d0 = e :: increment rest d0 by
        simp [increment, he]]
      intro x hx
      rcases List.mem_cons.mp hx with h1 | h1
      · subst h1; exact h x (List.mem_cons_self _ _)
      · exact ih (fun y hy => h y (List.mem_cons_of_mem _ hy)) x h1

/-- `decrement` leaves every other digest's count unchanged. -/
theorem lookupCount_decrement_ne (led : List (Digest × Nat)) (d0 d : Digest)
    (h : d ≠ d0) : lookupCount (decrement led d0) d = lookupCount led d := by
  induction led with
  | nil => simp [decrement]
  | cons e rest ih =>
    by_cases he : e.1 = d0
    · rw [show decrement (e :: rest) d0 =
          if e.2 ≤ 1 then rest else (e.1, e.2 - 1) :: rest by simp [decrement, he]]
      have hne : ¬e.1 = d := by rw [he]; exact fun q => h q.symm
      by_cases h2 : e.2 ≤ 1
      · rw [if_pos h2, lookupCount_cons, if_neg hne]
      · rw [if_neg h2, lookupCount_cons, lookupCount_cons, if_neg hne, if_neg hne]
    · rw [show decrement (e :: rest) d0 = e :: decrement rest d0 by
        simp [decrement, he]]
      rw [lookupCount_cons, lookupCount_cons, ih]

/-- With distinct ledger keys, `decrement` lowers the chosen digest's count by one. -/
theorem lookupCount_decrement_self (led : List (Digest × Nat)) (d0 : Digest)
    (hnd : (led.map Prod.fst).Nodup) :
    lookupCount (decrement led d0) d0 = lookupCount led d0 - 1 := by
  induction led with
  | nil => simp [decrement, lookupCount]
  | cons e rest ih =>
    rw [List.map_cons, List.nodup_cons] at hnd
    by_cases he : e.1 = d0
    · rw [show decrement (e :: rest) d0 =
          if e.2 ≤ 1 then rest else (e.1, e.2 - 1) :: rest by simp [decrement, he]]
      rw [lookupCount_cons, if_pos he]
      by_cases h2 : e.2 ≤ 1
      · rw [if_pos h2, lookupCount_eq_zero_of_not_mem rest d0 (he ▸ hnd.1)]
        omega
      · rw [if_neg h2, lookupCount_cons, if_pos he]
    · rw [show decrement (e :: rest) d0 = e :: decrement rest d0 by
        simp [decrement, he]]
      rw [lookupCount_cons, lookupCount_cons, if_neg he, if_neg he, ih hnd.2]

/-- The ledger keys after `decrement` are a sublist of the original keys. -/
theorem decrement_keys_sublist (led : List (Digest × Nat)) (d0 : Digest) :
    ((decrement led d0).map Prod.fst).Sublist (led.map Prod.fst) := by
  induction led with
  | nil => simp [decrement]
  | cons e rest ih =>
    by_cases he : e.1 = d0
    · rw [show decrement (e :: rest) d0 =
          if e.2 ≤ 1 then rest else (e.1, e.2 - 1) :: rest by simp [decrement, he]]
      by_cases h2 : e.2 ≤ 1
      · rw [if_pos h2]
        simp only [List.map_cons]
        exact (List.Sublist.refl _).cons e.1
      · rw [if_neg h2]; simp
    · rw [show decrement (e :: rest) d0 = e :: decrement rest d0 by
        simp [decrement, he]]
      simpa using ih.cons₂ e.1

/-- `decrement` keeps every remaining ledger count positive. -/
theorem decrement_pos (led : List (Digest × Nat)) (d0 : Digest)
    (h : ∀ e ∈ led, 0 < e.2) : ∀ e ∈ decrement led d0, 0 < e.2 := by
  induction led with
  | nil => simp [decrement]
  | cons e rest ih =>
    by_cases he : e.1 = d0
    · rw [show decrement (e :: rest) d0 =
          if e.2 ≤ 1 then rest else (e.1, e.2 - 1) :: rest by simp [decrement, he]]
      by_cases h2 : e.2 ≤ 1
      · rw [if_pos h2]
        exact fun x hx => h x (List.mem_cons_of_mem _ hx)
      · rw [if_neg h2]
        intro x hx
        rcases List.mem_cons.mp hx with h1 | h1
        · subst h1; simp; omega
        · exact h x (List.mem_cons_of_mem _ h1)
    · rw [show decrement (e :: rest) d0 = e :: decrement rest d0 by
        simp [decrement, he]]
      intro x hx
      rcases List.mem_cons.mp hx with h1 | h1
      · subst h1; exact h x (List.mem_cons_self _ _)
      · exact ih (fun y hy => h y (List.mem_cons_of_mem _ hy)) x h1

/-- With positive counts, a ledger entry for `d` exists exactly when the count of `d`
is positive. -/
theorem ledger_any_iff_pos (led : List (Digest × Nat)) (d : Digest)
    (h : ∀ e ∈ led, 0 < e.2) :
    led.any (fun e => decide (e.1 = d)) = true ↔ 0 < lookupCount led d := by
  induction led with
  | nil => simp [lookupCount]
  | cons e rest ih =>
    rw [lookupCount_cons]
    by_cases he : e.1 = d
    · rw [if_pos he]
      simp only [List.any_cons]
      rw [show decide (e.1 = d) = true by simpa using he]
      simp only [Bool.true_or]
      constructor
      · intro _; exact h e (List.mem_cons_self _ _)
      · intro _; trivial
    · rw [if_neg he]
      simp only [List.any_cons]
      rw [show decide (e.1 = d) = false by simpa using he]
      simp only [Bool.false_or]
      exact ih fun y hy => h y (List.mem_cons_of_mem _ hy)

/-! ### Blob Store lemmas -/

/-- Unfolding `blobExists` over a cons cell. -/
theorem blobExists_cons (b : Digest × Payload) (blobs : List (Digest × Payload))
    (d : Digest) :
    blobExists (b :: blobs) d = (decide (b.1 = d) || blobExists blobs d) := by
  simp [blobExists]

/-- A Blob exists exactly when its digest is among the blob keys. -/
theorem blobExists_iff_mem (blobs : List (Digest × Payload)) (d : Digest) :
    blobExists blobs d = true ↔ d ∈ blobs.map Prod.fst := by
  simp only [blobExists, List.any_eq_true, List.mem_map, decide_eq_true_eq]

/-- `put_if_absent` makes exactly the chosen digest present. -/
theorem blobExists_putIfAbsent (blobs : List (Digest × Payload)) (d0 : Digest)
    (p : Payload) (d : Digest) :
    blobExists (putIfAbsent blobs d0 p) d =
      (blobExists blobs d || decide (d = d0)) := by
  unfold putIfAbsent
  by_cases h : blobExists blobs d0 = true
  · rw [if_pos h]
    by_cases hd : d = d0
    · subst hd; rw [h]; simp
    · rw [show decide (d = d0) = false by simpa using hd]
      simp
  · rw [if_neg h, blobExists_cons]
    by_cases hd : d = d0
    · subst hd; simp
    · rw [show decide (d0 = d) = false by simpa using fun q => hd q.symm,
        show decide (d = d0) = false by simpa using hd]
      simp

/-- `remove` deletes exactly the chosen digest. -/
theorem blobExists_removeBlob (blobs : List (Digest × Payload)) (d0 d : Digest) :
    blobExists (removeBlob blobs d0) d =
      (blobExists blobs d && !decide (d = d0)) := by
  by_cases hd : d = d0
  · subst hd
    rw [show (!decide (d = d)) = false by simp, Bool.and_false]
    induction blobs with
    | nil => simp [removeBlob, blobExists]
    | cons b rest ih =>
      simp only [removeBlob, List.filter_cons]
      by_cases hb : b.1 = d
      · rw [show (!decide (b.1 = d)) = false by simpa using hb, if_neg (by simp)]
        simpa only [removeBlob] using ih
      · rw [show (!decide (b.1 = d)) = true by simpa using hb, if_pos rfl]
        rw [blobExists_cons, show decide (b.1 = d) = false by simpa using hb]
        simpa only [removeBlob, Bool.false_or] using ih
  · rw [show (!decide (d = d0)) = true by simpa using hd, Bool.and_true]
    induction blobs with
    | nil => simp [removeBlob]
    | cons b rest ih =>
      simp only [removeBlob, List.filter_cons]
      by_cases hb : b.1 = d0
      · rw [show (!decide (b.1 = d0)) = false by simpa using hb, if_neg (by simp)]
        rw [blobExists_cons, show decide (b.1 = d) = false by
          simpa using fun q => hd (q.symm.trans hb)]
        simpa only [removeBlob, Bool.false_or] using ih
      · rw [show (!decide (b.1 = d0)) = true by simpa using hb, if_pos rfl]
        rw [blobExists_cons, blobExists_cons]
        simp only [removeBlob] at ih
        rw [ih]

/-- Every entry of `put_if_absent` is an old entry or the new pair. -/
theorem putIfAbsent_mem (blobs : List (Digest × Payload)) (d0 : Digest) (p : Payload)
    (b : Digest × Payload) (hb : b ∈ putIfAbsent blobs d0 p) :
    b ∈ blobs ∨ b = (d0, p) := by
  unfold putIfAbsent at hb
  by_cases h : blobExists blobs d0 = true
  · rw [if_pos h] at hb; exact Or.inl hb
  · rw [if_neg h] at hb
    rcases List.mem_cons.mp hb with h1 | h1
    · exact Or.inr h1
    · exact Or.inl h1

/-- `remove` keeps only old entries. -/
theorem removeBlob_mem (blobs : List (Digest × Payload)) (d0 : Digest)
    (b : Digest × Payload) (hb : b ∈ removeBlob blobs d0) : b ∈ blobs :=
  (List.mem_filter.mp hb).1

/-! ### File Registry lemmas -/

/-- Unfolding `countRecords` over a cons cell. -/
theorem countRecords_cons (r : FileRecord) (records : List FileRecord) (d : Digest) :
    countRecords (r :: records) d =
      countRecords records d + (if r.digest = d then 1 else 0) := by
  by_cases h : r.digest = d <;> simp [countRecords, List.filter_cons, h]

/-- `countRecords` distributes over append. -/
theorem countRecords_append (l₁ l₂ : List FileRecord) (d : Digest) :
    countRecords (l₁ ++ l₂) d = countRecords l₁ d + countRecords l₂ d := by
  simp [countRecords, List.filter_append]

/-- `find?` over a list whose prefix fails the predicate returns the first hit. -/
theorem find?_middle {α : Type} (p : α → Bool) (l₁ : List α) (a : α) (l₂ : List α)
    (h : ∀ b ∈ l₁, ¬p b = true) (ha : p a = true) :
    (l₁ ++ a :: l₂).find? p = some a := by
  induction l₁ with
  | nil => simpa using List.find?_cons_of_pos _ ha
  | cons x xs ih =>
    rw [List.cons_append, List.find?_cons_of_neg _ (h x (List.mem_cons_self _ _))]
    exact ih fun b hb => h b (List.mem_cons_of_mem _ hb)

/-- Decomposition of a successful registry removal: the found record splits the list,
and `eraseP` removes exactly that occurrence. -/
theorem delete_decomp (st : StoreState) (fid : Nat) (r : FileRecord)
    (hfind : st.records.find? (fun q => decide (q.fid = fid)) = some r) :
    ∃ l₁ l₂, (∀ b ∈ l₁, ¬b.fid = fid) ∧ r.fid = fid ∧
      st.records = l₁ ++ r :: l₂ ∧
      st.records.eraseP (fun q => decide (q.fid = fid)) = l₁ ++ l₂ := by
  have hmem := List.mem_of_find?_eq_some hfind
  have hp := List.find?_some hfind
  obtain ⟨a, l₁, l₂, h₁, ha, hl, he⟩ :=
    @List.exists_of_eraseP FileRecord (fun q => decide (q.fid = fid)) st.records r
      hmem hp
  have hfind2 : (l₁ ++ a :: l₂).find? (fun q => decide (q.fid = fid)) = some a :=
    find?_middle _ l₁ a l₂ h₁ ha
  rw [← hl, hfind] at hfind2
  obtain rfl : r = a := by injection hfind2
  exact ⟨l₁, l₂, fun b hb => by simpa using h₁ b hb, by simpa using ha, hl, he⟩

/-! ### Operation unfoldings -/

/-- An oversized payload is rejected with the state unchanged. -/
theorem upload_fail_large (lim : Limits) (st : StoreState) (p : Payload)
    (fn mt : String) (now : Nat) (h1 : lim.maxPayloadBytes < p.length) :
    upload lim st p fn mt now = ⟨st, .error .payloadTooLarge⟩ := by
  simp only [upload]
  rw [if_pos h1]

/-- A payload that would overflow the capacity is rejected with the state unchanged. -/
theorem upload_fail_full (lim : Limits) (st : StoreState) (p : Payload)
    (fn mt : String) (now : Nat) (h1 : ¬lim.maxPayloadBytes < p.length)
    (h2 : blobExists st.blobs (digest p) = false ∧
      lim.capacityBytes < physicalSize st + p.length) :
    upload lim st p fn mt now = ⟨st, .error .storageFull⟩ := by
  simp only [upload]
  rw [if_neg h1, if_pos h2]

/-- The successful upload transition, written out. -/
theorem upload_success (lim : Limits) (st : StoreState) (p : Payload)
    (fn mt : String) (now : Nat) (h1 : ¬lim.maxPayloadBytes < p.length)
    (h2 : ¬(blobExists st.blobs (digest p) = false ∧
      lim.capacityBytes < physicalSize st + p.length)) :
    upload lim st p fn mt now =
      ⟨⟨⟨st.nextId, fn, mt, p.length, now, digest p⟩ :: st.records,
        putIfAbsent st.blobs (digest p) p,
        increment st.ledger (digest p), st.nextId + 1⟩,
       .ok ⟨⟨st.nextId, fn, mt, p.length, now, digest p⟩,
            blobExists st.blobs (digest p),
            lookupCount (increment st.ledger (digest p)) (digest p)⟩⟩ := by
  simp only [upload]
  rw [if_neg h1, if_neg h2]

/-- Deleting an unknown identifier reports `NotFound`. -/
theorem delete_none (st : StoreState) (fid : Nat)
    (hfind : st.records.find? (fun q => decide (q.fid = fid)) = none) :
    delete st fid = .notFound := by
  unfold delete
  rw [hfind]

/-- The successful delete transition, written out. -/
theorem delete_some (st : StoreState) (fid : Nat) (r : FileRecord)
    (hfind : st.records.find? (fun q => decide (q.fid = fid)) = some r) :
    delete st fid =
      .ok ⟨st.records.eraseP (fun q => decide (q.fid = fid)),
        if lookupCount st.ledger r.digest - 1 = 0 then removeBlob st.blobs r.digest
        else st.blobs,
        decrement st.ledger r.digest, st.nextId⟩ := by
  unfold delete
  rw [hfind]

/-! ### Preservation of well-formedness -/

/-- The empty store is well-formed. -/
theorem wf_empty : WFStore emptyStore := by
  unfold WFStore RefCountInv emptyStore
  refine ⟨?_, ?_, ?_, ?_, ?_, ?_, ?_⟩ <;>
    simp [blobExists, lookupCount, countRecords]

/-- `putIfAbsent` keeps the blob keys distinct. -/
theorem putIfAbsent_keys_nodup (blobs : List (Digest × Payload)) (d0 : Digest)
    (p : Payload) (h : (blobs.map Prod.fst).Nodup) :
    ((putIfAbsent blobs d0 p).map Prod.fst).Nodup := by
  unfold putIfAbsent
  by_cases hb : blobExists blobs d0 = true
  · rw [if_pos hb]; exact h
  · rw [if_neg hb]
    simp only [List.map_cons]
    exact List.nodup_cons.mpr ⟨fun hm => hb ((blobExists_iff_mem _ _).mpr hm), h⟩

/-- Upload preserves well-formedness (in every branch). -/
theorem wf_upload (lim : Limits) (st : StoreState) (p : Payload) (fn mt : String)
    (now : Nat) (h : WFStore st) : WFStore (upload lim st p fn mt now).state := by
  by_cases h1 : lim.maxPayloadBytes < p.length
  · rw [upload_fail_large lim st p fn mt now h1]; exact h
  · by_cases h2 : blobExists st.blobs (digest p) = false ∧
      lim.capacityBytes < physicalSize st + p.length
    · rw [upload_fail_full lim st p fn mt now h1 h2]; exact h
    · rw [upload_success lim st p fn mt now h1 h2]
      obtain ⟨hnd, hpos, hbnd, hbc, hrs, hfid, hinv⟩ := h
      have c1 : ((increment st.ledger (digest p)).map Prod.fst).Nodup :=
        increment_keys_nodup _ _ hnd
      have c2 := increment_pos st.ledger (digest p) hpos
      have c3 := putIfAbsent_keys_nodup st.blobs (digest p) p hbnd
      have c4 : ∀ b ∈ putIfAbsent st.blobs (digest p) p, b.2 = b.1 := by
        intro b hb
        rcases putIfAbsent_mem _ _ _ b hb with h3 | h3
        · exact hbc b h3
        · subst h3; rfl
      have c5 : ∀ r2 ∈ (⟨st.nextId, fn, mt, p.length, now, digest p⟩ : FileRecord) ::
          st.records, r2.size = r2.digest.length ∧ r2.fid < st.nextId + 1 := by
        intro r2 hr2
        rcases List.mem_cons.mp hr2 with h3 | h3
        · subst h3; exact ⟨rfl, Nat.lt_succ_self st.nextId⟩
        · obtain ⟨hs, hf⟩ := hrs r2 h3; exact ⟨hs, by omega⟩
      have c6 : (((⟨st.nextId, fn, mt, p.length, now, digest p⟩ : FileRecord) ::
          st.records).map FileRecord.fid).Nodup := by
        simp only [List.map_cons]
        refine List.nodup_cons.mpr ⟨?_, hfid⟩
        intro hm
        obtain ⟨r2, hr2, he2⟩ := List.mem_map.mp hm
        have := (hrs r2 hr2).2
        omega
      have c7 : ∀ d : Digest,
          (blobExists (putIfAbsent st.blobs (digest p) p) d = true ↔
            0 < lookupCount (increment st.ledger (digest p)) d) ∧
          lookupCount (increment st.ledger (digest p)) d =
            countRecords ((⟨st.nextId, fn, mt, p.length, now, digest p⟩ : FileRecord) ::
              st.records) d := by
        intro d
        obtain ⟨hiff, hcnt⟩ := hinv d
        constructor
        · rw [blobExists_putIfAbsent, lookupCount_increment]
          by_cases hd : d = digest p
          · rw [if_pos hd, show decide (d = digest p) = true by simpa using hd,
              Bool.or_true]
            constructor
            · intro _; omega
            · intro _; rfl
          · rw [if_neg hd, show decide (d = digest p) = false by simpa using hd,
              Bool.or_false]
            exact hiff
        · rw [lookupCount_increment, countRecords_cons]
          by_cases hd : d = digest p
          · rw [if_pos hd,
              if_pos (show (⟨st.nextId, fn, mt, p.length, now, digest p⟩ :
                FileRecord).digest = d from hd.symm)]
            omega
          · rw [if_neg hd,
              if_neg (show ¬(⟨st.nextId, fn, mt, p.length, now, digest p⟩ :
                FileRecord).digest = d from fun q => hd q.symm)]
            omega
      exact ⟨c1, c2, c3, c4, c5, c6, c7⟩

/-- Delete preserves well-formedness. -/
theorem wf_delete (st : StoreState) (fid : Nat) (st' : StoreState) (h : WFStore st)
    (hdel : delete st fid = .ok st') : WFStore st' := by
  obtain ⟨hnd, hpos, hbnd, hbc, hrs, hfid, hinv⟩ := h
  cases hfind : st.records.find? (fun q => decide (q.fid = fid)) with
  | none => rw [delete_none st fid hfind] at hdel; simp at hdel
  | some r =>
    rw [delete_some st fid r hfind] at hdel
    injection hdel with hst'
    subst hst'
    obtain ⟨l₁, l₂, hl1, hrfid, hsplit, herase⟩ := delete_decomp st fid r hfind
    have hsplitCount : ∀ d, countRecords (l₁ ++ l₂) d +
        (if r.digest = d then 1 else 0) = countRecords st.records d := by
      intro d
      rw [hsplit, countRecords_append, countRecords_append, countRecords_cons]
      omega
    have hcnt := (hinv r.digest).2
    have hself : 0 < countRecords st.records r.digest := by
      have := hsplitCount r.digest
      rw [if_pos rfl] at this
      omega
    have c1 : ((decrement st.ledger r.digest).map Prod.fst).Nodup :=
      List.Nodup.sublist (decrement_keys_sublist _ _) hnd
    have c2 := decrement_pos st.ledger r.digest hpos
    have c3 : (((if lookupCount st.ledger r.digest - 1 = 0 then
        removeBlob st.blobs r.digest else st.blobs)).map Prod.fst).Nodup := by
      by_cases hc : lookupCount st.ledger r.digest - 1 = 0
      · rw [if_pos hc]
        exact List.Nodup.sublist ((List.filter_sublist _).map Prod.fst) hbnd
      · rw [if_neg hc]; exact hbnd
    have c4 : ∀ b ∈ (if lookupCount st.ledger r.digest - 1 = 0 then
        removeBlob st.blobs r.digest else st.blobs), b.2 = b.1 := by
      by_cases hc : lookupCount st.ledger r.digest - 1 = 0
      · rw [if_pos hc]
        exact fun b hb => hbc b (removeBlob_mem _ _ b hb)
      · rw [if_neg hc]; exact hbc
    have hsub : ∀ r2 ∈ l₁ ++ l₂, r2 ∈ st.records := by
      intro r2 hr2
      rw [hsplit]
      rcases List.mem_append.mp hr2 with h3 | h3
      · exact List.mem_append_left _ h3
      · exact List.mem_append_right _ (List.mem_cons_of_mem _ h3)
    have c5 : ∀ r2 ∈ st.records.eraseP (fun q => decide (q.fid = fid)),
        r2.size = r2.digest.length ∧ r2.fid < st.nextId := by
      rw [herase]
      exact fun r2 hr2 => hrs r2 (hsub r2 hr2)
    have c6 : ((st.records.eraseP (fun q => decide (q.fid = fid))).map
        FileRecord.fid).Nodup := by
      rw [herase]
      have hfid2 : ((l₁ ++ r :: l₂).map FileRecord.fid).Nodup := by
        rw [← hsplit]; exact hfid
      rw [List.map_append, List.map_cons] at hfid2
      rw [List.map_append]
      exact List.Nodup.sublist
        ((List.Sublist.refl _).append ((List.Sublist.refl _).cons _)) hfid2
    have c7 : ∀ d : Digest,
        (blobExists (if lookupCount st.ledger r.digest - 1 = 0 then
          removeBlob st.blobs r.digest else st.blobs) d = true ↔
          0 < lookupCount (decrement st.ledger r.digest) d) ∧
        lookupCount (decrement st.ledger r.digest) d =
          countRecords (st.records.eraseP (fun q => decide (q.fid = fid))) d := by
      intro d
      constructor
      · by_cases hc : lookupCount st.ledger r.digest - 1 = 0
        · rw [if_pos hc, blobExists_removeBlob]
          by_cases hd : d = r.digest
          · rw [hd, show (!decide (r.digest = r.digest)) = false by simp,
              Bool.and_false, lookupCount_decrement_self _ _ hnd, hc]
            simp
          · rw [show (!decide (d = r.digest)) = true by simpa using hd,
              Bool.and_true, lookupCount_decrement_ne _ _ _ hd]
            exact (hinv d).1
        · rw [if_neg hc]
          by_cases hd : d = r.digest
          · rw [hd, lookupCount_decrement_self _ _ hnd]
            constructor
            · intro _; omega
            · intro _
              exact (hinv r.digest).1.mpr (by omega)
          · rw [lookupCount_decrement_ne _ _ _ hd]
            exact (hinv d).1
      · rw [herase]
        by_cases hd : d = r.digest
        · rw [hd, lookupCount_decrement_self _ _ hnd]
          have h0 := hsplitCount r.digest
          rw [if_pos rfl] at h0
          omega
        · rw [lookupCount_decrement_ne _ _ _ hd]
          have h0 := hsplitCount d
          rw [if_neg (fun q => hd q.symm)] at h0
          rw [(hinv d).2]
          omega
    exact ⟨c1, c2, c3, c4, c5, c6, c7⟩

/-- Every reachable store state is well-formed. -/
theorem reachable_wf (lim : Limits) (st : StoreState) (h : Reachable lim st) :
    WFStore st := by
  induction h with
  | empty => exact wf_empty
  | upload st p fn mt now _ ih => exact wf_upload lim st p fn mt now ih
  | del st fid st' _ hdel ih => exact wf_delete st fid st' ih hdel

/-! ### Claim theorems for the store -/

/-- C2: in every reachable state, for every digest, a Blob exists exactly when the
reference count is positive, and the reference count equals the number of live
FileRecords with that digest; the invariant is preserved by every upload and delete
since reachability is closed under both. -/
theorem refcount_invariant (lim : Limits) (st : StoreState) (h : Reachable lim st) :
    RefCountInv st := by
  obtain ⟨-, -, -, -, -, -, c7⟩ := reachable_wf lim st h
  exact c7

/-- Witness for C2 at the empty store. -/
theorem refcount_invariant_witness : RefCountInv emptyStore :=
  refcount_invariant ⟨10, 100⟩ emptyStore Reachable.empty

/-- C4: `duplicate_percentage` equals `saved_size_bytes / total_size_bytes * 100` (in
`ℚ`, where division by zero is zero), and is `0` whenever `total_size_bytes = 0` —
the division-by-zero case is defined, not an error. -/
theorem duplicate_percentage_spec (st : StoreState) :
    (stats st).duplicate_percentage =
      ((stats st).saved_size_bytes : ℚ) / ((stats st).total_size_bytes : ℚ) * 100 ∧
    ((stats st).total_size_bytes = 0 → (stats st).duplicate_percentage = 0) := by
  constructor
  · by_cases h : totalBytes st = 0
    · simp [stats, h]
    · simp [stats, h]
  · intro h
    have h0 : totalBytes st = 0 := h
    simp [stats, h0]

/-- Witness for C4 at the empty store, whose total size is `0`. -/
theorem duplicate_percentage_spec_witness :
    (stats emptyStore).total_size_bytes = 0 ∧
      (stats emptyStore).duplicate_percentage = 0 :=
  ⟨rfl, (duplicate_percentage_spec emptyStore).2 rfl⟩

/-- A successful upload records exactly the digest of the payload. -/
theorem upload_ok_digest (lim : Limits) (st : StoreState) (p : Payload)
    (fn mt : String) (now : Nat) (o : UploadOk)
    (h : (upload lim st p fn mt now).result = .ok o) : o.record.digest = digest p := by
  by_cases h1 : lim.maxPayloadBytes < p.length
  · rw [upload_fail_large lim st p fn mt now h1] at h; simp at h
  · by_cases h2 : blobExists st.blobs (digest p) = false ∧
      lim.capacityBytes < physicalSize st + p.length
    · rw [upload_fail_full lim st p fn mt now h1 h2] at h; simp at h
    · rw [upload_success lim st p fn mt now h1 h2] at h
      injection h with h
      rw [← h]

/-- C5: the digest is a deterministic function of the payload bytes alone — any two
successful uploads of the same payload, whatever the filename, media type, limits,
store state or instant, record the identical ContentDigest, namely `digest p`. -/
theorem digest_deterministic (lim1 lim2 : Limits) (st1 st2 : StoreState) (p : Payload)
    (fn1 mt1 fn2 mt2 : String) (t1 t2 : Nat) (o1 o2 : UploadOk)
    (h1 : (upload lim1 st1 p fn1 mt1 t1).result = .ok o1)
    (h2 : (upload lim2 st2 p fn2 mt2 t2).result = .ok o2) :
    o1.record.digest = o2.record.digest ∧ o1.record.digest = digest p := by
  have e1 := upload_ok_digest lim1 st1 p fn1 mt1 t1 o1 h1
  have e2 := upload_ok_digest lim2 st2 p fn2 mt2 t2 o2 h2
  exact ⟨e1.trans e2.symm, e1⟩

/-- Witness for C5: two concrete uploads of the same payload under different names,
limits and states agree on the digest. -/
theorem digest_deterministic_witness :
    ∃ o1 o2 : UploadOk,
      (upload ⟨10, 100⟩ emptyStore [7, 7] "a.bin" "app/x" 0).result = .ok o1 ∧
      (upload ⟨20, 200⟩ emptyStore [7, 7] "b.bin" "app/y" 5).result = .ok o2 ∧
      o1.record.digest = o2.record.digest ∧ o1.record.digest = digest [7, 7] := by
  refine ⟨⟨⟨0, "a.bin", "app/x", 2, 0, [7, 7]⟩, false, 1⟩,
    ⟨⟨0, "b.bin", "app/y", 2, 5, [7, 7]⟩, false, 1⟩, rfl, rfl, ?_⟩
  exact digest_deterministic ⟨10, 100⟩ ⟨20, 200⟩ emptyStore emptyStore [7, 7]
    "a.bin" "app/x" "b.bin" "app/y" 0 5 _ _ rfl rfl

/-- C7: an upload rejected by a resource limit (`PayloadTooLarge` or `StorageFull`)
leaves the store state — Blobs, FileRecords, reference counts — exactly as it was:
the rejection happens before any Ledger mutation. -/
theorem upload_rejection_pure (lim : Limits) (st : StoreState) (p : Payload)
    (fn mt : String) (now : Nat) (e : UploadError)
    (h : (upload lim st p fn mt now).result = .error e) :
    (upload lim st p fn mt now).state = st := by
  by_cases h1 : lim.maxPayloadBytes < p.length
  · rw [upload_fail_large lim st p fn mt now h1]
  · by_cases h2 : blobExists st.blobs (digest p) = false ∧
      lim.capacityBytes < physicalSize st + p.length
    · rw [upload_fail_full lim st p fn mt now h1 h2]
    · rw [upload_success lim st p fn mt now h1 h2] at h
      simp at h

/-- Witness for C7: a payload over the limit is rejected and the empty store is
untouched. -/
theorem upload_rejection_pure_witness :
    (upload ⟨0, 0⟩ emptyStore [1] "a" "t" 0).result = .error .payloadTooLarge ∧
      (upload ⟨0, 0⟩ emptyStore [1] "a" "t" 0).state = emptyStore :=
  ⟨rfl, upload_rejection_pure ⟨0, 0⟩ emptyStore [1] "a" "t" 0 .payloadTooLarge rfl⟩

/-- The first upload of an unknown payload: not a duplicate, reference count `1`, a
fresh Blob stored. -/
theorem upload_first (lim : Limits) (st : StoreState) (p : Payload) (fn mt : String)
    (now : Nat) (hb : blobExists st.blobs (digest p) = false)
    (hl : lookupCount st.ledger (digest p) = 0)
    (hsz : p.length ≤ lim.maxPayloadBytes)
    (hcap : physicalSize st + p.length ≤ lim.capacityBytes) :
    upload lim st p fn mt now =
      ⟨⟨⟨st.nextId, fn, mt, p.length, now, digest p⟩ :: st.records,
        (digest p, p) :: st.blobs, increment st.ledger (digest p), st.nextId + 1⟩,
       .ok ⟨⟨st.nextId, fn, mt, p.length, now, digest p⟩, false, 1⟩⟩ := by
  have h1 : ¬lim.maxPayloadBytes < p.length := Nat.not_lt.mpr hsz
  have h2 : ¬(blobExists st.blobs (digest p) = false ∧
      lim.capacityBytes < physicalSize st + p.length) :=
    fun hq => absurd hq.2 (Nat.not_lt.mpr hcap)
  rw [upload_success lim st p fn mt now h1 h2, hb]
  rw [lookupCount_increment, if_pos rfl, hl]
  simp only [putIfAbsent]
  rw [hb]
  rw [if_neg (by simp)]

/-- Uploading a payload whose Blob already exists: a duplicate, no new Blob, the
reference count incremented. -/
theorem upload_dup (lim : Limits) (st : StoreState) (p : Payload) (fn mt : String)
    (now : Nat) (hb : blobExists st.blobs (digest p) = true)
    (hsz : p.length ≤ lim.maxPayloadBytes) :
    upload lim st p fn mt now =
      ⟨⟨⟨st.nextId, fn, mt, p.length, now, digest p⟩ :: st.records,
        st.blobs, increment st.ledger (digest p), st.nextId + 1⟩,
       .ok ⟨⟨st.nextId, fn, mt, p.length, now, digest p⟩, true,
            lookupCount st.ledger (digest p) + 1⟩⟩ := by
  have h1 : ¬lim.maxPayloadBytes < p.length := Nat.not_lt.mpr hsz
  have h2 : ¬(blobExists st.blobs (digest p) = false ∧
      lim.capacityBytes < physicalSize st + p.length) := fun hq => by
    rw [hb] at hq
    simp at hq
  rw [upload_success lim st p fn mt now h1 h2, hb]
  rw [lookupCount_increment, if_pos rfl]
  simp only [putIfAbsent]
  rw [hb, if_pos rfl]

/-- C1: uploading the same payload twice (possibly under different filenames and media
types), starting from a state that does not yet know the payload, yields two distinct
FileRecords and exactly one Blob for its digest; the first response has
`is_duplicate = false` and `reference_count = 1`, the second `is_duplicate = true` and
`reference_count = 2`. -/
theorem dedup_upload_twice (lim : Limits) (st : StoreState) (p : Payload)
    (fn1 mt1 fn2 mt2 : String) (t1 t2 : Nat)
    (hb : blobExists st.blobs (digest p) = false)
    (hl : lookupCount st.ledger (digest p) = 0)
    (hsz : p.length ≤ lim.maxPayloadBytes)
    (hcap : physicalSize st + p.length ≤ lim.capacityBytes) :
    ∃ (r1 r2 : FileRecord) (st1 st2 : StoreState),
      upload lim st p fn1 mt1 t1 = ⟨st1, .ok ⟨r1, false, 1⟩⟩ ∧
      upload lim st1 p fn2 mt2 t2 = ⟨st2, .ok ⟨r2, true, 2⟩⟩ ∧
      st2.records = r2 :: r1 :: st.records ∧
      r1 ≠ r2 ∧
      (st2.blobs.filter (fun b => decide (b.1 = digest p))).length = 1 := by
  have e1 := upload_first lim st p fn1 mt1 t1 hb hl hsz hcap
  have hb2 : blobExists ((digest p, p) :: st.blobs) (digest p) = true := by
    rw [blobExists_cons]; simp
  have hl2 : lookupCount (increment st.ledger (digest p)) (digest p) = 1 := by
    rw [lookupCount_increment, if_pos rfl, hl]
  have e2 := upload_dup lim
    ⟨⟨st.nextId, fn1, mt1, p.length, t1, digest p⟩ :: st.records,
     (digest p, p) :: st.blobs, increment st.ledger (digest p), st.nextId + 1⟩
    p fn2 mt2 t2 hb2 hsz
  rw [show (⟨⟨st.nextId, fn1, mt1, p.length, t1, digest p⟩ :: st.records,
      (digest p, p) :: st.blobs, increment st.ledger (digest p),
      st.nextId + 1⟩ : StoreState).ledger = increment st.ledger (digest p) from rfl,
    hl2] at e2
  have hfil : st.blobs.filter (fun b => decide (b.1 = digest p)) = [] := by
    rw [List.filter_eq_nil_iff]
    simpa [blobExists] using hb
  refine ⟨⟨st.nextId, fn1, mt1, p.length, t1, digest p⟩,
    ⟨st.nextId + 1, fn2, mt2, p.length, t2, digest p⟩, _, _, e1, e2, rfl, ?_, ?_⟩
  · intro q
    have hq := congrArg FileRecord.fid q
    simp at hq
  · show (((digest p, p) :: st.blobs).filter
      (fun b => decide (b.1 = digest p))).length = 1
    rw [List.filter_cons_of_pos (by simp), hfil]
    rfl

/-- Witness for C1: the two-byte payload `[7, 7]` uploaded twice into the empty store
under two different filenames. -/
theorem dedup_upload_twice_witness :
    ∃ (r1 r2 : FileRecord) (st1 st2 : StoreState),
      upload ⟨10, 100⟩ emptyStore [7, 7] "a.txt" "text/plain" 0 =
        ⟨st1, .ok ⟨r1, false, 1⟩⟩ ∧
      upload ⟨10, 100⟩ st1 [7, 7] "b.txt" "text/plain" 1 =
        ⟨st2, .ok ⟨r2, true, 2⟩⟩ ∧
      st2.records = r2 :: r1 :: emptyStore.records ∧
      r1 ≠ r2 ∧
      (st2.blobs.filter (fun b => decide (b.1 = digest [7, 7]))).length = 1 :=
  dedup_upload_twice ⟨10, 100⟩ emptyStore [7, 7] "a.txt" "text/plain" "b.txt"
    "text/plain" 0 1 (by decide) (by decide) (by decide) (by decide)

/-- C6: `Delete(fileID)` fails with `NotFound` exactly when no FileRecord with that
identifier exists; otherwise it removes exactly the found record (all others are kept),
decrements the reference count of its digest by one, and removes the Blob and the
Ledger entry exactly when the resulting count is zero (that is, when the old count was
one). -/
theorem delete_spec (lim : Limits) (st : StoreState) (hst : Reachable lim st)
    (fid : Nat) :
    (delete st fid = .notFound ↔ ∀ r ∈ st.records, r.fid ≠ fid) ∧
    (∀ r : FileRecord, st.records.find? (fun q => decide (q.fid = fid)) = some r →
      ∃ st' : StoreState, delete st fid = .ok st' ∧
        (∀ q : FileRecord, q ∈ st'.records ↔ q ∈ st.records ∧ q ≠ r) ∧
        st'.records.length + 1 = st.records.length ∧
        lookupCount st'.ledger r.digest + 1 = lookupCount st.ledger r.digest ∧
        (blobExists st'.blobs r.digest = false ↔
          lookupCount st.ledger r.digest = 1) ∧
        (st'.ledger.any (fun e => decide (e.1 = r.digest)) = false ↔
          lookupCount st.ledger r.digest = 1)) := by
  obtain ⟨hnd, hpos, hbnd, hbc, hrs, hfid, hinv⟩ := reachable_wf lim st hst
  constructor
  · have hiff : delete st fid = .notFound ↔
        st.records.find? (fun q => decide (q.fid = fid)) = none := by
      cases hf : st.records.find? (fun q => decide (q.fid = fid)) with
      | none => simp [delete_none st fid hf]
      | some r => rw [delete_some st fid r hf]; simp
    rw [hiff, List.find?_eq_none]
    constructor <;> intro h r hr <;> simpa using h r hr
  · intro r hfind
    obtain ⟨l₁, l₂, hl1, hrfid, hsplit, herase⟩ := delete_decomp st fid r hfind
    have hmemr := List.mem_of_find?_eq_some hfind
    have hge : 0 < countRecords st.records r.digest := by
      have hmf : r ∈ st.records.filter (fun q => decide (q.digest = r.digest)) :=
        List.mem_filter.mpr ⟨hmemr, by simp⟩
      exact List.length_pos_of_mem hmf
    have hge1 : 1 ≤ lookupCount st.ledger r.digest := by
      rw [(hinv r.digest).2]; omega
    refine ⟨_, delete_some st fid r hfind, ?_, ?_, ?_, ?_, ?_⟩
    · show ∀ q : FileRecord,
        q ∈ st.records.eraseP (fun q => decide (q.fid = fid)) ↔
          q ∈ st.records ∧ q ≠ r
      have hvnd : st.records.Nodup := List.Nodup.of_map FileRecord.fid hfid
      have hrnodup : (l₁ ++ r :: l₂).Nodup := hsplit ▸ hvnd
      have hdisj := (List.nodup_append.mp hrnodup).2.2
      have hrl1 : r ∉ l₁ := fun hq => hdisj hq (List.mem_cons_self _ _)
      have hrl2 : r ∉ l₂ :=
        (List.nodup_cons.mp (List.nodup_append.mp hrnodup).2.1).1
      intro q
      rw [herase]
      constructor
      · intro hq
        rcases List.mem_append.mp hq with h3 | h3
        · exact ⟨hsplit ▸ List.mem_append_left _ h3,
            fun hqr => hrl1 (hqr ▸ h3)⟩
        · exact ⟨hsplit ▸ List.mem_append_right _ (List.mem_cons_of_mem _ h3),
            fun hqr => hrl2 (hqr ▸ h3)⟩
      · rintro ⟨hq, hqr⟩
        rw [hsplit] at hq
        rcases List.mem_append.mp hq with h3 | h3
        · exact List.mem_append_left _ h3
        · rcases List.mem_cons.mp h3 with h4 | h4
          · exact absurd h4 hqr
          · exact List.mem_append_right _ h4
    · show (st.records.eraseP (fun q => decide (q.fid = fid))).length + 1 =
        st.records.length
      rw [herase, hsplit]
      simp
      omega
    · show lookupCount (decrement st.ledger r.digest) r.digest + 1 =
        lookupCount st.ledger r.digest
      rw [lookupCount_decrement_self _ _ hnd]
      omega
    · show blobExists (if lookupCount st.ledger r.digest - 1 = 0 then
        removeBlob st.blobs r.digest else st.blobs) r.digest = false ↔
          lookupCount st.ledger r.digest = 1
      by_cases hc : lookupCount st.ledger r.digest - 1 = 0
      · rw [if_pos hc, blobExists_removeBlob,
          show (!decide (r.digest = r.digest)) = false by simp, Bool.and_false]
        constructor
        · intro _; omega
        · intro _; rfl
      · rw [if_neg hc]
        have hbe : blobExists st.blobs r.digest = true :=
          (hinv r.digest).1.mpr (by omega)
        rw [hbe]
        constructor
        · intro q; exact absurd q (by simp)
        · intro q; exact absurd (by omega : lookupCount st.ledger r.digest - 1 = 0) hc
    · show (decrement st.ledger r.digest).any (fun e => decide (e.1 = r.digest)) =
        false ↔ lookupCount st.ledger r.digest = 1
      have hany := ledger_any_iff_pos (decrement st.ledger r.digest) r.digest
        (decrement_pos _ _ hpos)
      rw [lookupCount_decrement_self _ _ hnd] at hany
      constructor
      · intro h
        by_contra hq
        have h2 := hany.mpr (by omega : 0 < lookupCount st.ledger r.digest - 1)
        rw [h] at h2
        exact absurd h2 (by simp)
      · intro h
        have h0 : ¬0 < lookupCount st.ledger r.digest - 1 := by omega
        have h1 := mt hany.mp h0
        exact Bool.eq_false_iff.mpr h1

/-- Shared concrete limits for the reachable example states. -/
def limEx : Limits := ⟨10, 100⟩

/-- The store after one upload of `[7, 7]` into the empty store. -/
def stEx1 : StoreState :=
  (upload limEx emptyStore [7, 7] "a.txt" "text/plain" 0).state

/-- The store after uploading `[7, 7]` twice. -/
def stEx2 : StoreState :=
  (upload limEx stEx1 [7, 7] "b.txt" "text/plain" 1).state

/-- Witness for C6: deleting the single record of `stEx1` (identifier `0`). -/
theorem delete_spec_witness :
    (delete stEx1 0 = .notFound ↔ ∀ r ∈ stEx1.records, r.fid ≠ 0) ∧
    (∀ r : FileRecord, stEx1.records.find? (fun q => decide (q.fid = 0)) = some r →
      ∃ st' : StoreState, delete stEx1 0 = .ok st' ∧
        (∀ q : FileRecord, q ∈ st'.records ↔ q ∈ stEx1.records ∧ q ≠ r) ∧
        st'.records.length + 1 = stEx1.records.length ∧
        lookupCount st'.ledger r.digest + 1 = lookupCount stEx1.ledger r.digest ∧
        (blobExists st'.blobs r.digest = false ↔
          lookupCount stEx1.ledger r.digest = 1) ∧
        (st'.ledger.any (fun e => decide (e.1 = r.digest)) = false ↔
          lookupCount stEx1.ledger r.digest = 1)) :=
  delete_spec limEx stEx1
    (Reachable.upload emptyStore [7, 7] "a.txt" "text/plain" 0 Reachable.empty) 0

/-! ### Stats aggregation lemmas -/

/-- A mapped sum splits along a Boolean predicate. -/
theorem sum_map_split {α : Type} (l : List α) (p : α → Bool) (f : α → Nat) :
    ((l.filter p).map f).sum + ((l.filter (fun x => !p x)).map f).sum =
      (l.map f).sum := by
  induction l with
  | nil => simp
  | cons a rest ih =>
    by_cases h : p a = true
    · rw [List.filter_cons_of_pos h, List.filter_cons_of_neg (by simp [h])]
      simp only [List.map_cons, List.sum_cons]
      omega
    · rw [List.filter_cons_of_neg (by simp [h]),
        List.filter_cons_of_pos (by simp [h])]
      simp only [List.map_cons, List.sum_cons]
      omega

/-- A mapped sum of a constant is the length times the constant. -/
theorem sum_map_const {α : Type} (l : List α) (f : α → Nat) (c : Nat)
    (h : ∀ x ∈ l, f x = c) : (l.map f).sum = l.length * c := by
  induction l with
  | nil => simp
  | cons a rest ih =>
    simp only [List.map_cons, List.sum_cons, List.length_cons]
    rw [h a (List.mem_cons_self _ _), ih (fun x hx => h x (List.mem_cons_of_mem _ hx))]
    ring

/-- Dropping the records of one digest leaves the counts of other digests alone. -/
theorem countRecords_filter_ne (records : List FileRecord) (d e : Digest)
    (hne : d ≠ e) :
    countRecords (records.filter (fun r => !decide (r.digest = e))) d =
      countRecords records d := by
  induction records with
  | nil => rfl
  | cons r rest ih =>
    rw [List.filter_cons]
    by_cases hr : r.digest = e
    · rw [show (!decide (r.digest = e)) = false by simpa using hr, if_neg (by simp)]
      rw [countRecords_cons, if_neg (fun q => hne (q.symm.trans hr)), ih]
      omega
    · rw [show (!decide (r.digest = e)) = true by simpa using hr, if_pos rfl]
      rw [countRecords_cons, countRecords_cons, ih]

/-- Grouping the registry's logical sizes by ledger entry: when the ledger counts
match the registry and sizes match digests, the total logical footprint is the sum of
`count * blob length` over the ledger. -/
theorem ledger_group_sum (led : List (Digest × Nat)) :
    (led.map Prod.fst).Nodup →
    ∀ records : List FileRecord,
      (∀ d, lookupCount led d = countRecords records d) →
      (∀ r ∈ records, r.size = r.digest.length) →
      (records.map (fun r => r.size)).sum =
        (led.map (fun e => e.2 * e.1.length)).sum := by
  induction led with
  | nil =>
    intro _ records hcount hsize
    cases records with
    | nil => simp
    | cons r rs =>
      exfalso
      have h0 := hcount r.digest
      rw [countRecords_cons, if_pos rfl] at h0
      simp [lookupCount] at h0
  | cons e rest ih =>
    intro hnd records hcount hsize
    rw [List.map_cons] at hnd
    obtain ⟨hkey, hnd'⟩ := List.nodup_cons.mp hnd
    rw [← sum_map_split records (fun r => decide (r.digest = e.1)) (fun r => r.size)]
    have hlen1 : (records.filter (fun r => decide (r.digest = e.1))).length = e.2 := by
      have h0 := hcount e.1
      rw [lookupCount_cons, if_pos rfl] at h0
      exact h0.symm
    have hsum1 : ((records.filter (fun r => decide (r.digest = e.1))).map
        (fun r => r.size)).sum = e.2 * e.1.length := by
      rw [sum_map_const (records.filter (fun r => decide (r.digest = e.1)))
        (fun r => r.size) e.1.length (by
          intro x hx
          obtain ⟨hm, hd⟩ := List.mem_filter.mp hx
          show x.size = e.1.length
          rw [hsize x hm, show x.digest = e.1 by simpa using hd]), hlen1]
    have hcount' : ∀ d, lookupCount rest d =
        countRecords (records.filter (fun r => !decide (r.digest = e.1))) d := by
      intro d
      by_cases hdq : d = e.1
      · rw [hdq, lookupCount_eq_zero_of_not_mem rest e.1 hkey]
        have hnil : (records.filter (fun r => !decide (r.digest = e.1))).filter
            (fun r => decide (r.digest = e.1)) = [] := by
          rw [List.filter_eq_nil_iff]
          intro a ha
          obtain ⟨-, hd⟩ := List.mem_filter.mp ha
          simpa using hd
        show 0 = countRecords _ e.1
        unfold countRecords
        rw [hnil]
        rfl
      · rw [countRecords_filter_ne _ _ _ hdq]
        have h0 := hcount d
        rw [lookupCount_cons, if_neg (fun q => hdq q.symm)] at h0
        exact h0
    have hsize' : ∀ r ∈ records.filter (fun r => !decide (r.digest = e.1)),
        r.size = r.digest.length := fun r hr => hsize r (List.mem_filter.mp hr).1
    rw [hsum1, ih hnd' (records.filter (fun r => !decide (r.digest = e.1)))
      hcount' hsize']
    simp

/-- When a Blob exists and blobs store the payload matching their digest, the blob
size is the digest's length. -/
theorem blobSize_of_exists (blobs : List (Digest × Payload)) (d : Digest)
    (hb : blobExists blobs d = true) (hc : ∀ b ∈ blobs, b.2 = b.1) :
    blobSize blobs d = d.length := by
  unfold blobSize
  cases hf : blobs.find? (fun b => decide (b.1 = d)) with
  | none =>
    exfalso
    rw [List.find?_eq_none] at hf
    simp only [blobExists, List.any_eq_true] at hb
    obtain ⟨b, hbm, hbd⟩ := hb
    exact hf b hbm hbd
  | some b =>
    have hbm := List.mem_of_find?_eq_some hf
    have hbd : b.1 = d := by simpa using List.find?_some hf
    show b.2.length = d.length
    rw [hc b hbm, hbd]

/-- Per-entry split of `count * size` into saved and physically stored parts. -/
theorem ledger_sum_split (led : List (Digest × Nat))
    (hpos : ∀ e ∈ led, 0 < e.2) :
    (led.map (fun e => e.2 * e.1.length)).sum =
      (led.map (fun e => (e.2 - 1) * e.1.length)).sum +
      (led.map (fun e => e.1.length)).sum := by
  induction led with
  | nil => simp
  | cons e rest ih =>
    simp only [List.map_cons, List.sum_cons]
    have he := hpos e (List.mem_cons_self _ _)
    have hmul : e.2 * e.1.length = (e.2 - 1) * e.1.length + e.1.length := by
      obtain ⟨k, hk⟩ : ∃ k, e.2 = k + 1 := ⟨e.2 - 1, by omega⟩
      rw [hk]
      simp [Nat.succ_mul]
    rw [ih (fun x hx => hpos x (List.mem_cons_of_mem _ hx))]
    omega

/-- C8: in every reachable state, `total_size_bytes - saved_size_bytes` equals the sum
of blob sizes over the distinct digests with a nonzero reference count (the physically
stored footprint), and `saved_size_bytes` never exceeds `total_size_bytes`. -/
theorem stats_identity (lim : Limits) (st : StoreState) (h : Reachable lim st) :
    (stats st).saved_size_bytes ≤ (stats st).total_size_bytes ∧
    (stats st).total_size_bytes - (stats st).saved_size_bytes =
      uniqueBlobBytes st := by
  obtain ⟨hnd, hpos, hbnd, hbc, hrs, hfid, hinv⟩ := reachable_wf lim st h
  have hbs : ∀ e ∈ st.ledger, blobSize st.blobs e.1 = e.1.length := by
    intro e he
    have hcpos := (ledger_any_iff_pos st.ledger e.1 hpos).mp
      (List.any_eq_true.mpr ⟨e, he, by simp⟩)
    have hb : blobExists st.blobs e.1 = true := (hinv e.1).1.mpr hcpos
    exact blobSize_of_exists st.blobs e.1 hb hbc
  have htot : (stats st).total_size_bytes =
      (st.ledger.map (fun e => e.2 * e.1.length)).sum := by
    show totalBytes st = _
    unfold totalBytes
    exact ledger_group_sum st.ledger hnd st.records (fun d => (hinv d).2)
      (fun r hr => (hrs r hr).1)
  have hsav : (stats st).saved_size_bytes =
      (st.ledger.map (fun e => (e.2 - 1) * e.1.length)).sum := by
    show savedBytes st = _
    unfold savedBytes
    refine congrArg List.sum (List.map_congr_left ?_)
    intro e he
    by_cases h2 : 1 < e.2
    · rw [if_pos h2, hbs e he]
    · rw [if_neg h2]
      have h1 : e.2 = 1 := by have := hpos e he; omega
      rw [h1]
      simp
  have huni : uniqueBlobBytes st = (st.ledger.map (fun e => e.1.length)).sum := by
    unfold uniqueBlobBytes
    rw [List.filter_eq_self.mpr (fun e he => by simpa using hpos e he)]
    exact congrArg List.sum (List.map_congr_left hbs)
  have hsplit := ledger_sum_split st.ledger hpos
  constructor
  · rw [htot, hsav]; omega
  · rw [htot, hsav, huni]; omega

/-- Witness for C8 at the reachable state `stEx2` holding one deduplicated payload
referenced twice. -/
theorem stats_identity_witness :
    (stats stEx2).saved_size_bytes ≤ (stats stEx2).total_size_bytes ∧
      (stats stEx2).total_size_bytes - (stats stEx2).saved_size_bytes =
        uniqueBlobBytes stEx2 :=
  stats_identity limEx stEx2
    (Reachable.upload stEx1 [7, 7] "b.txt" "text/plain" 1
      (Reachable.upload emptyStore [7, 7] "a.txt" "text/plain" 0 Reachable.empty))

end CloudFileAgent
